import Mathlib

set_option maxHeartbeats 1000000

/-!
Verification development for the EDMC PluginBrowser plugin manager
(`plugin_manager_module.py`).  Folder and member names are modelled as lists
of characters; the plugin root directory is modelled as a list of named
entries; network and archive outcomes are explicit parameters, so every
operation of the source module becomes a total function on these data.
-/

/-- Characters of a name; every file, folder and archive-member name in the
model is a list of characters. -/
abbrev Str := List Char

/-- Reserved folder-name suffix marking a disabled plugin (`".disabled"`). -/
def disSuffix : Str := (".disabled").toList

/-- Index of the last occurrence of a dot in a name, Python `str.rfind('.')`
(`none` when no dot occurs). -/
def rfindDot : List Char → Option Nat
  | [] => none
  | c :: cs =>
    match rfindDot cs with
    | some i => some (i + 1)
    | none => if c = '.' then some 0 else none

/-- Suffix of a file name as computed by `pathlib.PurePath.suffix`: the text
from the last dot on, empty when there is no dot, the dot is the first
character, or the dot is the last character. -/
def pySuffix (name : Str) : Str :=
  match rfindDot name with
  | some i => if 0 < i ∧ i < name.length - 1 then name.drop i else []
  | none => []

/-- Name computation of `pathlib.PurePath.with_suffix`: drop the old suffix
from the name and append the new one. -/
def pyWithSuffixName (name suffix : Str) : Str :=
  if pySuffix name = [] then name ++ suffix
  else name.take (name.length - (pySuffix name).length) ++ suffix

/-- Full `pathlib.PurePath.with_suffix` on a path's final name, including the
argument validation of the source library: a suffix containing a path
separator (either platform), a non-empty suffix not starting with a dot, the
bare-dot suffix, and an empty name each raise `ValueError`. -/
def pyWithSuffix (name suffix : Str) : Except Unit Str :=
  if '/' ∈ suffix ∨ '\\' ∈ suffix then .error ()
  else if (suffix ≠ [] ∧ suffix.head? ≠ some '.') ∨ suffix = ['.'] then .error ()
  else if name = [] then .error ()
  else .ok (pyWithSuffixName name suffix)

/-- The disabled-suffixed sibling name that `install_plugin` constructs on its
line 169, `install_path.with_suffix(install_path.suffix + ".disabled")`,
restricted to the name of the path (the validation of `with_suffix` cannot
fire there for a non-empty, separator-free folder name). -/
def disabledSibling (id : Str) : Str :=
  pyWithSuffixName id (pySuffix id ++ disSuffix)

theorem rfindDot_drop : ∀ {l : List Char} {i : Nat}, rfindDot l = some i →
    ∃ t, l.drop i = '.' :: t := by
  intro l
  induction l with
  | nil => intro i h; simp [rfindDot] at h
  | cons c cs ih =>
    intro i h
    simp only [rfindDot] at h
    cases hcs : rfindDot cs with
    | some j =>
      rw [hcs] at h
      injection h with h
      subst h
      simpa using ih hcs
    | none =>
      rw [hcs] at h
      by_cases hc : c = '.'
      · rw [if_pos hc] at h
        injection h with h
        subst h
        exact ⟨cs, by simp [hc]⟩
      · rw [if_neg hc] at h
        exact absurd h (by simp)

theorem rfindDot_lt {l : List Char} {i : Nat} (h : rfindDot l = some i) :
    i < l.length := by
  obtain ⟨t, ht⟩ := rfindDot_drop h
  by_contra hle
  push_neg at hle
  rw [List.drop_eq_nil_of_le hle] at ht
  exact List.noConfusion ht

theorem pyWithSuffixName_suffix_append (name s : Str) :
    pyWithSuffixName name (pySuffix name ++ s) = name ++ s := by
  unfold pyWithSuffixName
  by_cases h : pySuffix name = []
  · rw [if_pos h, h]
    simp
  · rw [if_neg h]
    cases hr : rfindDot name with
    | none => simp only [pySuffix, hr] at h; exact absurd trivial h
    | some i =>
      simp only [pySuffix, hr] at h ⊢
      by_cases hc : 0 < i ∧ i < name.length - 1
      · rw [if_pos hc] at h ⊢
        have hlt : i < name.length := rfindDot_lt hr
        rw [List.length_drop, Nat.sub_sub_self (le_of_lt hlt),
          ← List.append_assoc, List.take_append_drop]
      · rw [if_neg hc] at h
        exact absurd rfl h

theorem mem_pySuffix {c : Char} {name : Str} (h : c ∈ pySuffix name) :
    c ∈ name := by
  cases hr : rfindDot name with
  | none => simp only [pySuffix, hr] at h; simp at h
  | some i =>
    simp only [pySuffix, hr] at h
    by_cases hc : 0 < i ∧ i < name.length - 1
    · rw [if_pos hc] at h
      exact List.mem_of_mem_drop h
    · rw [if_neg hc] at h
      simp at h

theorem pySuffix_head {name : Str} (h : pySuffix name ≠ []) :
    (pySuffix name).head? = some '.' := by
  cases hr : rfindDot name with
  | none => simp only [pySuffix, hr] at h; exact absurd rfl h
  | some i =>
    simp only [pySuffix, hr] at h ⊢
    by_cases hc : 0 < i ∧ i < name.length - 1
    · rw [if_pos hc]
      obtain ⟨t, ht⟩ := rfindDot_drop hr
      rw [ht]
      rfl
    · rw [if_neg hc] at h
      exact absurd rfl h

/-- C4: for every non-empty, separator-free plugin id, the disabled-sibling
path that the install conflict check constructs by
`install_path.with_suffix(install_path.suffix + ".disabled")` equals the path
obtained by appending `".disabled"` directly to the folder name: the
construction does not double the extension, because `with_suffix` first strips
the old suffix and the argument re-adds it. -/
theorem c4_with_suffix_refines (id : Str) (h1 : id ≠ []) (h2 : '/' ∉ id)
    (h3 : '\\' ∉ id) :
    pyWithSuffix id (pySuffix id ++ disSuffix) = .ok (id ++ disSuffix) := by
  unfold pyWithSuffix
  have hsep : ¬('/' ∈ pySuffix id ++ disSuffix ∨ '\\' ∈ pySuffix id ++ disSuffix) := by
    rintro (hm | hm) <;> rw [List.mem_append] at hm
    · rcases hm with hm | hm
      · exact h2 (mem_pySuffix hm)
      · revert hm; decide
    · rcases hm with hm | hm
      · exact h3 (mem_pySuffix hm)
      · revert hm; decide
  have hdot : ¬((pySuffix id ++ disSuffix ≠ [] ∧
      (pySuffix id ++ disSuffix).head? ≠ some '.') ∨
      pySuffix id ++ disSuffix = ['.']) := by
    rintro (⟨_, hh⟩ | hh)
    · apply hh
      by_cases he : pySuffix id = []
      · rw [he]
        rfl
      · rw [List.head?_append_of_ne_nil _ he]
        exact pySuffix_head he
    · have := congrArg List.length hh
      rw [List.length_append] at this
      have h9 : disSuffix.length = 9 := by decide
      rw [h9] at this
      simp at this
  rw [if_neg hsep, if_neg hdot, if_neg h1, pyWithSuffixName_suffix_append]

/-- Witness for C4 at the id `"foo.bar"`, whose name does carry a non-empty
`pathlib` suffix. -/
theorem c4_with_suffix_refines_witness :
    pyWithSuffix ("foo.bar").toList (pySuffix ("foo.bar").toList ++ disSuffix) =
      .ok (("foo.bar").toList ++ disSuffix) :=
  c4_with_suffix_refines ("foo.bar").toList (by decide) (by decide) (by decide)

/-- Top-level component of an archive member name, Python
`member.split('/', 1)[0]` as computed in `install_plugin`. -/
def topLevelName (m : Str) : Str := m.takeWhile (fun c => !(c == '/'))

/-- Python `str.rstrip('/')`: drop every trailing slash. -/
def rstripSlash (s : Str) : Str := (s.reverse.dropWhile (fun c => c == '/')).reverse

/-- Deduplicated top-level member names of an archive,
`set(member.split('/', 1)[0] for member in zip_ref.namelist())`. -/
def topLevelMembers (names : List Str) : List Str := (names.map topLevelName).dedup

/-- Whether the top-level archive entry named `t` is a directory: some member
lies strictly below it. -/
def isDirMember (names : List Str) (t : Str) : Bool :=
  names.any (fun m => (t ++ ['/']).isPrefixOf m)

/-- Member paths below the top-level entry `t`, relative to `t` (what ends up
inside the moved directory after `extractall` into the staging directory). -/
def childRel (names : List Str) (t : Str) : List Str :=
  (names.filterMap
    (fun m => if (t ++ ['/']).isPrefixOf m then some (m.drop (t.length + 1)) else none)).filter
    (fun r => !(r == []))

/-- What `install_plugin` leaves at `{plugin_root}/{id}`: a directory holding
the given member paths relative to it, or a single moved file. -/
inductive InstallLayout where
  | dirC : List Str → InstallLayout
  | fileC : InstallLayout
deriving DecidableEq

/-- Extraction logic of `install_plugin` (source lines 187-198): when the
deduplicated top-level member names are a single name whose right-stripped
form equals the plugin id, extract to a staging directory and move that single
entry into place; otherwise make the destination directory and extract every
member into it. -/
def codeInstallLayout (id : Str) (names : List Str) : InstallLayout :=
  match topLevelMembers names with
  | [t] =>
    if rstripSlash t = id then
      (if isDirMember names t then .dirC (childRel names t) else .fileC)
    else .dirC names
  | _ => .dirC names

/-- Modelled from the claim of C2 as stated: if the archive contains exactly
one top-level directory whose name equals the record id, that directory is
moved into place; otherwise the destination is created as a directory and all
archive contents are extracted directly into it. -/
def specInstallLayout (id : Str) (names : List Str) : InstallLayout :=
  if topLevelMembers names = [id] ∧ isDirMember names id = true then
    .dirC (childRel names id)
  else .dirC names

/-- Modelled from the amended claim of C2: the branch condition is on the
single deduplicated top-level entry name being the id, whether that entry is a
directory or a file; a lone file named like the id is moved into place as the
file `{plugin_root}/{id}`. -/
def specInstallLayoutAmended (id : Str) (names : List Str) : InstallLayout :=
  if topLevelMembers names = [id] then
    (if isDirMember names id then .dirC (childRel names id) else .fileC)
  else .dirC names

theorem topLevelName_no_slash {m : Str} {c : Char} (h : c ∈ topLevelName m) :
    ¬ c = '/' := by
  unfold topLevelName at h
  have hp := List.mem_takeWhile_imp h
  simpa using hp

theorem rstripSlash_eq_self {s : Str} (h : ∀ c ∈ s, ¬ c = '/') :
    rstripSlash s = s := by
  unfold rstripSlash
  cases hs : s.reverse with
  | nil =>
    rw [List.dropWhile_nil, ← hs, List.reverse_reverse]
  | cons a t =>
    have ha : a ∈ s := by
      have : a ∈ s.reverse := by rw [hs]; exact List.mem_cons_self a t
      simpa using this
    rw [List.dropWhile_cons]
    have hfa : (a == '/') = false := by
      simp only [beq_eq_false_iff_ne]
      exact h a ha
    rw [hfa]
    simp only [Bool.false_eq_true, if_false]
    rw [← hs, List.reverse_reverse]

/-- C2 (amended): the extraction logic of `install_plugin` agrees everywhere
with the amended archive-layout rule, which keys on the single deduplicated
top-level entry name (directory or file) rather than on a top-level directory. -/
theorem c2_archive_layout (id : Str) (names : List Str) :
    codeInstallLayout id names = specInstallLayoutAmended id names := by
  unfold codeInstallLayout specInstallLayoutAmended
  split
  next t htl =>
    have hts : rstripSlash t = t := by
      apply rstripSlash_eq_self
      intro c hc
      have htm : t ∈ topLevelMembers names := by
        rw [htl]; exact List.mem_cons_self t []
      unfold topLevelMembers at htm
      rw [List.mem_dedup] at htm
      obtain ⟨m, _, rfl⟩ := List.mem_map.mp htm
      exact topLevelName_no_slash hc
    rw [hts, htl]
    by_cases hid : t = id
    · subst hid
      simp
    · rw [if_neg hid, if_neg]
      intro hx
      injection hx with hx
      exact hid hx
  next x hne =>
    rw [if_neg]
    intro hx
    exact hne id hx

/-- Counterexample to C2 as stated: an archive whose only entry is a single
file named exactly like the plugin id.  The claim's rule puts that file inside
a freshly created directory `{plugin_root}/{id}`, but the code moves the file
itself into place as `{plugin_root}/{id}`. -/
theorem c2_archive_layout_counterexample :
    codeInstallLayout ("P").toList [("P").toList] = .fileC ∧
    specInstallLayout ("P").toList [("P").toList] = .dirC [("P").toList] ∧
    codeInstallLayout ("P").toList [("P").toList] ≠
      specInstallLayout ("P").toList [("P").toList] := by
  refine ⟨by decide, by decide, by decide⟩

/-- Severity carried by each `_status_update` call (its `msg_type` argument:
`"info"`, `"warning"` or `"error"`). -/
inductive Sev where
  | info
  | warning
  | error
deriving DecidableEq

/-- A direct child of the plugin root directory: its entry name, whether it is
a directory, and whether it holds the entry-point file `load.py` at its top
level (only meaningful for directories). -/
structure Entry where
  name : Str
  isDir : Bool
  hasLoadPy : Bool
deriving DecidableEq

/-- Contents of the plugin root directory. -/
abbrev RootState := List Entry

/-- Whether some child of the plugin root is named `n` (`Path.exists`). -/
def existsName (st : RootState) (n : Str) : Bool := st.any (fun e => e.name == n)

/-- Whether the child named `n` exists and is a directory (`Path.is_dir`). -/
def isDirName (st : RootState) (n : Str) : Bool :=
  st.any (fun e => e.name == n && e.isDir)

/-- Delete the child named `n` (`Path.unlink` / `shutil.rmtree`). -/
def removeName (st : RootState) (n : Str) : RootState :=
  st.filter (fun e => !(e.name == n))

/-- Rename the child named `old` to `new` (`Path.rename`). -/
def renameEntry (st : RootState) (old new : Str) : RootState :=
  st.map (fun e => if e.name == old then { e with name := new } else e)

/-- Create a new child of the plugin root. -/
def addEntry (st : RootState) (e : Entry) : RootState := st ++ [e]

/-- The host-recognized plugin entry-point file name. -/
def loadPy : Str := ("load.py").toList

/-- Status string `"enabled"` of `get_installed_plugins`. -/
def enabledStr : Str := ("enabled").toList

/-- Status string `"disabled"` of `get_installed_plugins`. -/
def disabledStr : Str := ("disabled").toList

/-- Name of the temporary downloaded archive, `f"{plugin_id}_temp.zip"`. -/
def tempZipName (id : Str) : Str := id ++ ("_temp.zip").toList

/-- Python `name.endswith(".disabled")`. -/
def endsWithDis (n : Str) : Bool := disSuffix.isSuffixOf n

/-- Python `name[:-len(".disabled")]`. -/
def stripDis (n : Str) : Str := n.take (n.length - disSuffix.length)

/-- One record of `get_installed_plugins`: display name, status string, and
the on-disk entry name (the model keeps the name of the child, standing for
the full path `plugin_dir / name` of the source). -/
structure InstalledPluginInfo where
  name : Str
  status : Str
  path : Str
deriving DecidableEq

/-- Classification of one child of the plugin root by
`get_installed_plugins` (source lines 133-148): only directories qualify, a
`.disabled` suffix is stripped and reported as status `disabled`, and the
directory is reported only when it holds `load.py` at its top level. -/
def scanEntry (e : Entry) : Option InstalledPluginInfo :=
  if e.isDir then
    let p := if endsWithDis e.name then (stripDis e.name, disabledStr)
             else (e.name, enabledStr)
    if e.hasLoadPy then some ⟨p.1, p.2, e.name⟩ else none
  else none

/-- `get_installed_plugins` (source lines 120-149): `none` models a missing
plugin root directory, which yields no plugins and one logged warning. -/
def get_installed_plugins : Option RootState → List InstalledPluginInfo × List Sev
  | none => ([], [.warning])
  | some st => (st.filterMap scanEntry, [])

/-- Outcome oracle for one `install_plugin` run past its conflict check:
which exception (if any) interrupts it and what the interrupted filesystem
work had already created.  `netFail` is a `requests` error during download
(`tempWritten`: the temporary archive file had already been opened), `badZip`
is `zipfile.BadZipFile` on opening the download, `extractOS` is an `OSError`
during the extraction phase and `extractUnexpected` any other exception there
(`dirCreated`/`loadWritten`: the install directory had already been created,
and already holds `load.py`), and `success` carries the archive member
names. -/
inductive InstallOutcome where
  | netFail (tempWritten : Bool)
  | badZip
  | extractOS (dirCreated : Bool) (loadWritten : Bool)
  | extractUnexpected (dirCreated : Bool) (loadWritten : Bool)
  | success (names : List Str)
deriving DecidableEq

/-- The entry a successful install leaves at `{plugin_root}/{id}`: the moved
or freshly created directory (holding `load.py` exactly when the extracted
relative member paths include it), or the moved single file. -/
def installedEntry (id : Str) (names : List Str) : Entry :=
  match codeInstallLayout id names with
  | .dirC rel => ⟨id, true, rel.any (fun r => r == loadPy)⟩
  | .fileC => ⟨id, false, false⟩

/-- `install_plugin` (source lines 152-220) as a transition on the plugin
root: conflict check against `{id}` and the `with_suffix`-built disabled
sibling, then download, extraction per `codeInstallLayout`, the
exception handlers (only the catch-all one removes a partially created
install directory), and the `finally` block that unlinks the temporary
archive.  Returns the success flag, the new root contents, and the
severities of the `_status_update` calls made, in order.  (The staging
directory `{id}_temp_extract` of the single-top-entry branch is not
modelled; on the success path it is removed, and its leftover on failure
paths never carries a top-level `load.py`.) -/
def install_plugin (st : RootState) (id : Str) (outcome : InstallOutcome) :
    Bool × RootState × List Sev :=
  if existsName st id || existsName st (disabledSibling id) then
    (false, st, [.info, .error])
  else
    match outcome with
    | .netFail tempWritten =>
      let st1 := if tempWritten then addEntry st ⟨tempZipName id, false, false⟩ else st
      (false, removeName st1 (tempZipName id), [.info, .info, .error])
    | .badZip =>
      let st1 := addEntry st ⟨tempZipName id, false, false⟩
      (false, removeName st1 (tempZipName id), [.info, .info, .info, .info, .error])
    | .extractOS dirCreated loadWritten =>
      let st1 := addEntry st ⟨tempZipName id, false, false⟩
      let st2 := if dirCreated then addEntry st1 ⟨id, true, loadWritten⟩ else st1
      (false, removeName st2 (tempZipName id), [.info, .info, .info, .info, .error])
    | .extractUnexpected dirCreated loadWritten =>
      let st1 := addEntry st ⟨tempZipName id, false, false⟩
      let st2 := if dirCreated then addEntry st1 ⟨id, true, loadWritten⟩ else st1
      let st3 := if existsName st2 id then removeName st2 id else st2
      (false, removeName st3 (tempZipName id), [.info, .info, .info, .info, .error])
    | .success names =>
      let st1 := addEntry st ⟨tempZipName id, false, false⟩
      (true, removeName (addEntry st1 (installedEntry id names)) (tempZipName id),
        [.info, .info, .info, .info, .info, .warning])

/-- `remove_plugin` (source lines 223-245): requires the target to be an
existing directory, then deletes its tree; `osOk = false` models an `OSError`
from `shutil.rmtree`, reported and leaving the top-level entry in place. -/
def remove_plugin (st : RootState) (folder : Str) (osOk : Bool) :
    Bool × RootState × List Sev :=
  if !(isDirName st folder) then (false, st, [.info, .error])
  else if osOk then (true, removeName st folder, [.info, .info, .warning])
  else (false, st, [.info, .error])

/-- `enable_plugin` (source lines 248-272): the disabled-suffixed source must
be a directory and the non-suffixed destination must not exist, then a single
rename; `osOk = false` models an `OSError` from the rename. -/
def enable_plugin (st : RootState) (base : Str) (osOk : Bool) :
    Bool × RootState × List Sev :=
  let disabledName := base ++ disSuffix
  if !(isDirName st disabledName) then (false, st, [.info, .error])
  else if existsName st base then (false, st, [.info, .error])
  else if osOk then (true, renameEntry st disabledName base, [.info, .info, .warning])
  else (false, st, [.info, .error])

/-- `disable_plugin` (source lines 275-299): mirror image of
`enable_plugin`. -/
def disable_plugin (st : RootState) (base : Str) (osOk : Bool) :
    Bool × RootState × List Sev :=
  let disabledName := base ++ disSuffix
  if !(isDirName st base) then (false, st, [.info, .error])
  else if existsName st disabledName then (false, st, [.info, .error])
  else if osOk then (true, renameEntry st base disabledName, [.info, .info, .warning])
  else (false, st, [.info, .error])

/-- The at-most-one-of-`{name}`/`{name}.disabled` invariant over the whole
plugin root: no child's disabled-suffixed sibling is also present. -/
def rootInvariant (st : RootState) : Bool :=
  st.all (fun e => !(existsName st (e.name ++ disSuffix)))

theorem existsName_iff {st : RootState} {n : Str} :
    existsName st n = true ↔ ∃ e ∈ st, e.name = n := by
  simp [existsName, List.any_eq_true]

theorem existsName_append {a b : RootState} {n : Str} :
    existsName (a ++ b) n = (existsName a n || existsName b n) := by
  simp [existsName, List.any_append]

theorem existsName_singleton {e : Entry} {m : Str} :
    existsName [e] m = (e.name == m) := by
  simp [existsName]

theorem existsName_removeName {st : RootState} {n m : Str} :
    existsName (removeName st n) m = true ↔ m ≠ n ∧ existsName st m = true := by
  simp only [existsName, removeName, List.any_eq_true, List.mem_filter,
    Bool.not_eq_true', beq_eq_false_iff_ne, beq_iff_eq]
  constructor
  · rintro ⟨e, ⟨he, hne⟩, rfl⟩
    exact ⟨hne, e, he, rfl⟩
  · rintro ⟨hne, e, he, rfl⟩
    exact ⟨e, ⟨he, hne⟩, rfl⟩

theorem existsName_removeName_self (st : RootState) (n : Str) :
    existsName (removeName st n) n = false := by
  cases hx : existsName (removeName st n) n
  · rfl
  · obtain ⟨hne, _⟩ := existsName_removeName.mp hx
    exact absurd rfl hne

theorem removeName_eq_self {st : RootState} {n : Str} (h : existsName st n = false) :
    removeName st n = st := by
  apply List.filter_eq_self.mpr
  intro e he
  simp only [Bool.not_eq_true', beq_eq_false_iff_ne]
  intro hcontra
  rw [existsName_iff.mpr ⟨e, he, hcontra⟩] at h
  cases h

theorem removeName_append (a b : RootState) (n : Str) :
    removeName (a ++ b) n = removeName a n ++ removeName b n :=
  List.filter_append a b

theorem existsName_rename {st : RootState} {old new n : Str} (hno : new ≠ old) :
    existsName (renameEntry st old new) n = true ↔
      ((n = new ∧ existsName st old = true) ∨ (n ≠ old ∧ existsName st n = true)) := by
  simp only [existsName_iff, renameEntry, List.mem_map]
  constructor
  · rintro ⟨e, ⟨a, ha, rfl⟩, hn⟩
    by_cases hao : a.name = old
    · left
      rw [if_pos (beq_iff_eq.mpr hao)] at hn
      exact ⟨hn.symm, a, ha, hao⟩
    · right
      rw [if_neg (fun hb => hao (beq_iff_eq.mp hb))] at hn
      exact ⟨hn ▸ hao, a, ha, hn⟩
  · rintro (⟨rfl, a, ha, hao⟩ | ⟨hnold, a, ha, han⟩)
    · refine ⟨{ a with name := n }, ⟨a, ha, ?_⟩, rfl⟩
      rw [if_pos (beq_iff_eq.mpr hao)]
    · refine ⟨a, ⟨a, ha, ?_⟩, han⟩
      rw [if_neg (fun hb => hnold (han ▸ beq_iff_eq.mp hb))]

theorem append_disSuffix_ne (x : Str) : x ++ disSuffix ≠ x := by
  intro h
  have hlen := congrArg List.length h
  rw [List.length_append] at hlen
  have h9 : disSuffix.length = 9 := by decide
  rw [h9] at hlen
  omega

theorem tempZipName_ne (id : Str) : tempZipName id ≠ id := by
  intro h
  have hlen := congrArg List.length h
  unfold tempZipName at hlen
  rw [List.length_append] at hlen
  have h9 : (("_temp.zip").toList).length = 9 := by decide
  rw [h9] at hlen
  omega

theorem endsWithDis_append (x : Str) : endsWithDis (x ++ disSuffix) = true := by
  unfold endsWithDis
  rw [List.isSuffixOf_iff_suffix]
  exact List.suffix_append x disSuffix

theorem rootInvariant_iff {st : RootState} :
    rootInvariant st = true ↔
      ∀ n : Str, ¬(existsName st n = true ∧ existsName st (n ++ disSuffix) = true) := by
  unfold rootInvariant
  rw [List.all_eq_true]
  constructor
  · rintro h n ⟨h1, h2⟩
    obtain ⟨e, he, hen⟩ := existsName_iff.mp h1
    have hh := h e he
    rw [Bool.not_eq_eq_eq_not, Bool.not_true] at hh
    rw [hen] at hh
    rw [hh] at h2
    cases h2
  · intro h e he
    rw [Bool.not_eq_eq_eq_not, Bool.not_true]
    cases hx : existsName st (e.name ++ disSuffix)
    · rfl
    · exact absurd ⟨existsName_iff.mpr ⟨e, he, rfl⟩, hx⟩ (h e.name)

/-- C1: when `{plugin_root}/{id}` or its disabled-suffixed sibling
`{plugin_root}/{id}.disabled` already exists, `install_plugin` returns false,
reports exactly one error status (after the opening info message), and leaves
the plugin root's contents unchanged, whatever the download would have
produced. -/
theorem c1_install_conflict (st : RootState) (id : Str) (o : InstallOutcome)
    (h : existsName st id = true ∨ existsName st (id ++ disSuffix) = true) :
    (install_plugin st id o).1 = false ∧ (install_plugin st id o).2.1 = st ∧
      (install_plugin st id o).2.2 = [.info, .error] := by
  have hsib : disabledSibling id = id ++ disSuffix :=
    pyWithSuffixName_suffix_append id disSuffix
  have hcond : (existsName st id || existsName st (disabledSibling id)) = true := by
    rw [hsib]
    rcases h with h | h <;> simp [h]
  unfold install_plugin
  rw [if_pos hcond]
  exact ⟨rfl, rfl, rfl⟩

/-- Witness for C1: installing `"P"` over an existing enabled `P` directory. -/
theorem c1_install_conflict_witness :
    (install_plugin [⟨("P").toList, true, true⟩] (("P").toList) (.success [])).1 = false ∧
    (install_plugin [⟨("P").toList, true, true⟩] (("P").toList) (.success [])).2.1 =
      [⟨("P").toList, true, true⟩] ∧
    (install_plugin [⟨("P").toList, true, true⟩] (("P").toList) (.success [])).2.2 =
      [.info, .error] :=
  c1_install_conflict [⟨("P").toList, true, true⟩] (("P").toList) (.success [])
    (Or.inl (by decide))

/-- C9: an install attempt that starts with no stale temporary archive in the
plugin root ends with none, whatever its outcome: the `finally` block unlinks
`{id}_temp.zip` on every path that created it. -/
theorem c9_temp_zip_cleanup (st : RootState) (id : Str) (o : InstallOutcome)
    (h : existsName st (tempZipName id) = false) :
    existsName (install_plugin st id o).2.1 (tempZipName id) = false := by
  unfold install_plugin
  split
  · exact h
  · cases o <;> exact existsName_removeName_self _ _

/-- Witness for C9 on a successful install of `"P"` into an empty root. -/
theorem c9_temp_zip_cleanup_witness :
    existsName (install_plugin [] (("P").toList)
      (.success [("P/load.py").toList])).2.1 (tempZipName (("P").toList)) = false :=
  c9_temp_zip_cleanup [] (("P").toList) (.success [("P/load.py").toList]) (by decide)

/-- C3 (amended): after a failed install the plugin root is restored exactly
when the failure is a network error, a bad archive, or an exception reaching
the catch-all handler (which removes a partially created install directory);
an `OSError` during extraction is handled by a branch with no such cleanup. -/
theorem c3_cleanup_amended (st : RootState) (id : Str) (p pd pl : Bool)
    (h : existsName st (tempZipName id) = false) :
    ((install_plugin st id (.netFail p)).1 = false ∧
      (install_plugin st id (.netFail p)).2.1 = st) ∧
    ((install_plugin st id .badZip).1 = false ∧
      (install_plugin st id .badZip).2.1 = st) ∧
    ((install_plugin st id (.extractUnexpected pd pl)).1 = false ∧
      (install_plugin st id (.extractUnexpected pd pl)).2.1 = st) := by
  have hTe : removeName [(⟨tempZipName id, false, false⟩ : Entry)] (tempZipName id) = [] := by
    simp [removeName, List.filter]
  have hadd : removeName (st ++ [(⟨tempZipName id, false, false⟩ : Entry)]) (tempZipName id) = st := by
    rw [removeName_append, removeName_eq_self h, hTe, List.append_nil]
  refine ⟨?_, ?_, ?_⟩
  · simp only [install_plugin, addEntry]
    split
    · exact ⟨rfl, rfl⟩
    · refine ⟨rfl, ?_⟩
      cases p
      · simp only [Bool.false_eq_true, if_false]
        exact removeName_eq_self h
      · simp only [if_true]
        exact hadd
  · simp only [install_plugin, addEntry]
    split
    · exact ⟨rfl, rfl⟩
    · exact ⟨rfl, hadd⟩
  · simp only [install_plugin, addEntry]
    split
    · exact ⟨rfl, rfl⟩
    next hc =>
      refine ⟨rfl, ?_⟩
      rw [Bool.or_eq_true, not_or, Bool.not_eq_true, Bool.not_eq_true] at hc
      obtain ⟨hid, _⟩ := hc
      have hkeep : removeName [(⟨tempZipName id, false, false⟩ : Entry)] id =
          [(⟨tempZipName id, false, false⟩ : Entry)] := by
        simp [removeName, List.filter, beq_eq_false_iff_ne.mpr (tempZipName_ne id)]
      cases pd
      · simp only [Bool.false_eq_true, if_false]
        have hex : existsName (st ++ [(⟨tempZipName id, false, false⟩ : Entry)]) id = false := by
          rw [existsName_append, existsName_singleton, hid]
          simp only [Bool.false_or]
          exact beq_eq_false_iff_ne.mpr (tempZipName_ne id)
        rw [hex]
        simp only [Bool.false_eq_true, if_false]
        exact hadd
      · simp only [if_true]
        have hex : existsName ((st ++ [(⟨tempZipName id, false, false⟩ : Entry)]) ++
            [(⟨id, true, pl⟩ : Entry)]) id = true := by
          rw [existsName_append, existsName_singleton]
          simp
        rw [hex]
        simp only [if_true]
        have hdrop : removeName [(⟨id, true, pl⟩ : Entry)] id = [] := by
          simp [removeName, List.filter]
        have hst3 : removeName ((st ++ [(⟨tempZipName id, false, false⟩ : Entry)]) ++
            [(⟨id, true, pl⟩ : Entry)]) id =
            st ++ [(⟨tempZipName id, false, false⟩ : Entry)] := by
          rw [removeName_append, removeName_append, removeName_eq_self hid, hkeep, hdrop,
            List.append_nil]
        rw [hst3, hadd]

/-- Counterexample to C3 as stated: an `OSError` that interrupts extraction
after the install directory was created (with `load.py` already extracted)
returns false but leaves the new directory behind, so the installed-set state
after the failed install differs from the state before it. -/
theorem c3_cleanup_counterexample :
    (install_plugin [] (("P").toList) (.extractOS true true)).1 = false ∧
    (get_installed_plugins (some (install_plugin [] (("P").toList)
      (.extractOS true true)).2.1)).1 ≠
      (get_installed_plugins (some ([] : RootState))).1 := by
  exact ⟨by decide, by decide⟩

/-- Witness for C3 (amended) with an unexpected extraction failure that had
already created the install directory: the catch-all handler removes it. -/
theorem c3_cleanup_amended_witness :
    ((install_plugin [] (("P").toList) (.netFail true)).1 = false ∧
      (install_plugin [] (("P").toList) (.netFail true)).2.1 = []) ∧
    ((install_plugin [] (("P").toList) .badZip).1 = false ∧
      (install_plugin [] (("P").toList) .badZip).2.1 = []) ∧
    ((install_plugin [] (("P").toList) (.extractUnexpected true true)).1 = false ∧
      (install_plugin [] (("P").toList) (.extractUnexpected true true)).2.1 = []) :=
  c3_cleanup_amended [] (("P").toList) true true true (by decide)

theorem installedEntry_name (id : Str) (names : List Str) :
    (installedEntry id names).name = id := by
  unfold installedEntry
  cases codeInstallLayout id names <;> rfl

theorem enable_refuses {st : RootState} {b : Str} {ok : Bool}
    (hE : existsName st b = true) :
    (enable_plugin st b ok).1 = false ∧ (enable_plugin st b ok).2.1 = st ∧
      Sev.error ∈ (enable_plugin st b ok).2.2 := by
  simp only [enable_plugin]
  split
  · exact ⟨rfl, rfl, by simp⟩
  · exact ⟨rfl, rfl, by simp⟩

theorem disable_refuses {st : RootState} {b : Str} {ok : Bool}
    (hD : existsName st (b ++ disSuffix) = true) :
    (disable_plugin st b ok).1 = false ∧ (disable_plugin st b ok).2.1 = st ∧
      Sev.error ∈ (disable_plugin st b ok).2.2 := by
  simp only [disable_plugin]
  split
  · exact ⟨rfl, rfl, by simp⟩
  · exact ⟨rfl, rfl, by simp⟩

theorem invariant_enable (st : RootState) (base : Str) (ok : Bool)
    (hInv : rootInvariant st = true) (hbase : endsWithDis base = false) :
    rootInvariant (enable_plugin st base ok).2.1 = true := by
  simp only [enable_plugin]
  split
  · exact hInv
  · split
    · exact hInv
    next h2 =>
      cases ok
      · simp only [Bool.false_eq_true, if_false]
        exact hInv
      · simp only [if_true]
        rw [rootInvariant_iff] at hInv ⊢
        intro n hab
        obtain ⟨ha, hb⟩ := hab
        have hno : base ≠ base ++ disSuffix := Ne.symm (append_disSuffix_ne base)
        rcases (existsName_rename hno).mp ha with ⟨hn, _⟩ | ⟨hnne, hsn⟩
        · subst hn
          rcases (existsName_rename hno).mp hb with ⟨hnd, _⟩ | ⟨hndne, _⟩
          · exact append_disSuffix_ne n hnd
          · exact hndne rfl
        · rcases (existsName_rename hno).mp hb with ⟨hnd, _⟩ | ⟨_, hsnd⟩
          · rw [← hnd, endsWithDis_append] at hbase
            cases hbase
          · exact hInv n ⟨hsn, hsnd⟩

theorem invariant_disable (st : RootState) (base : Str) (ok : Bool)
    (hInv : rootInvariant st = true)
    (hdd : existsName st ((base ++ disSuffix) ++ disSuffix) = false) :
    rootInvariant (disable_plugin st base ok).2.1 = true := by
  simp only [disable_plugin]
  split
  · exact hInv
  · split
    · exact hInv
    next h2 =>
      cases ok
      · simp only [Bool.false_eq_true, if_false]
        exact hInv
      · simp only [if_true]
        rw [rootInvariant_iff] at hInv ⊢
        intro n hab
        obtain ⟨ha, hb⟩ := hab
        have hno : base ++ disSuffix ≠ base := append_disSuffix_ne base
        rcases (existsName_rename hno).mp ha with ⟨hn, _⟩ | ⟨hnne, hsn⟩
        · subst hn
          rcases (existsName_rename hno).mp hb with ⟨hnd, _⟩ | ⟨_, hsnd⟩
          · exact append_disSuffix_ne (base ++ disSuffix) hnd
          · rw [hsnd] at hdd
            cases hdd
        · rcases (existsName_rename hno).mp hb with ⟨hnd, _⟩ | ⟨_, hsnd⟩
          · exact hnne (List.append_cancel_right hnd)
          · exact hInv n ⟨hsn, hsnd⟩

theorem remove_exists_sub {st : RootState} {folder : Str} {ok : Bool} {m : Str}
    (h : existsName (remove_plugin st folder ok).2.1 m = true) :
    existsName st m = true := by
  simp only [remove_plugin] at h
  split at h
  · exact h
  · split at h
    · exact (existsName_removeName.mp h).2
    · exact h

theorem invariant_remove (st : RootState) (folder : Str) (ok : Bool)
    (hInv : rootInvariant st = true) :
    rootInvariant (remove_plugin st folder ok).2.1 = true := by
  rw [rootInvariant_iff] at hInv ⊢
  intro n hab
  exact hInv n ⟨remove_exists_sub hab.1, remove_exists_sub hab.2⟩

theorem install_exists_sub {st : RootState} {id : Str} {o : InstallOutcome} {m : Str}
    (h : existsName (install_plugin st id o).2.1 m = true) :
    existsName st m = true ∨ m = id := by
  have hsplit : ∀ {a : RootState} {e : Entry},
      existsName (a ++ [e]) m = true → existsName a m = true ∨ e.name = m := by
    intro a e hx
    have h3 : (existsName a m || existsName [e] m) = true := by
      rw [← existsName_append]
      exact hx
    rcases Bool.or_eq_true_iff.mp h3 with h4 | h4
    · exact Or.inl h4
    · rw [existsName_singleton] at h4
      exact Or.inr (beq_iff_eq.mp h4)
  simp only [install_plugin, addEntry] at h
  split at h
  · exact Or.inl h
  · cases o with
    | netFail p =>
      obtain ⟨hmt, h2⟩ := existsName_removeName.mp h
      cases p
      · exact Or.inl h2
      · rcases hsplit h2 with h4 | h4
        · exact Or.inl h4
        · exact absurd h4.symm hmt
    | badZip =>
      obtain ⟨hmt, h2⟩ := existsName_removeName.mp h
      rcases hsplit h2 with h4 | h4
      · exact Or.inl h4
      · exact absurd h4.symm hmt
    | extractOS pd pl =>
      obtain ⟨hmt, h2⟩ := existsName_removeName.mp h
      cases pd
      · rcases hsplit h2 with h4 | h4
        · exact Or.inl h4
        · exact absurd h4.symm hmt
      · rcases hsplit h2 with h4 | h4
        · rcases hsplit h4 with h5 | h5
          · exact Or.inl h5
          · exact absurd h5.symm hmt
        · exact Or.inr h4.symm
    | extractUnexpected pd pl =>
      cases pd
      · replace h : existsName (removeName
            (if existsName (st ++ [(⟨tempZipName id, false, false⟩ : Entry)]) id = true then
              removeName (st ++ [(⟨tempZipName id, false, false⟩ : Entry)]) id
            else st ++ [(⟨tempZipName id, false, false⟩ : Entry)])
            (tempZipName id)) m = true := h
        obtain ⟨hmt, h2⟩ := existsName_removeName.mp h
        have h2' : existsName (st ++ [(⟨tempZipName id, false, false⟩ : Entry)]) m = true := by
          split at h2
          · exact (existsName_removeName.mp h2).2
          · exact h2
        rcases hsplit h2' with h4 | h4
        · exact Or.inl h4
        · exact absurd h4.symm hmt
      · replace h : existsName (removeName
            (if existsName ((st ++ [(⟨tempZipName id, false, false⟩ : Entry)]) ++
                [(⟨id, true, pl⟩ : Entry)]) id = true then
              removeName ((st ++ [(⟨tempZipName id, false, false⟩ : Entry)]) ++
                [(⟨id, true, pl⟩ : Entry)]) id
            else (st ++ [(⟨tempZipName id, false, false⟩ : Entry)]) ++
                [(⟨id, true, pl⟩ : Entry)])
            (tempZipName id)) m = true := h
        obtain ⟨hmt, h2⟩ := existsName_removeName.mp h
        have h2' : existsName ((st ++ [(⟨tempZipName id, false, false⟩ : Entry)]) ++
            [(⟨id, true, pl⟩ : Entry)]) m = true := by
          split at h2
          · exact (existsName_removeName.mp h2).2
          · exact h2
        rcases hsplit h2' with h4 | h4
        · rcases hsplit h4 with h5 | h5
          · exact Or.inl h5
          · exact absurd h5.symm hmt
        · exact Or.inr h4.symm
    | success names =>
      obtain ⟨hmt, h2⟩ := existsName_removeName.mp h
      rcases hsplit h2 with h4 | h4
      · rcases hsplit h4 with h5 | h5
        · exact Or.inl h5
        · exact absurd h5.symm hmt
      · rw [installedEntry_name] at h4
        exact Or.inr h4.symm

theorem invariant_install (st : RootState) (id : Str) (o : InstallOutcome)
    (hInv : rootInvariant st = true) (hid : endsWithDis id = false) :
    rootInvariant (install_plugin st id o).2.1 = true := by
  by_cases hc : (existsName st id || existsName st (disabledSibling id)) = true
  · unfold install_plugin
    rw [if_pos hc]
    exact hInv
  · have hsibf : existsName st (id ++ disSuffix) = false := by
      rw [Bool.or_eq_true, not_or, Bool.not_eq_true, Bool.not_eq_true] at hc
      rw [← pyWithSuffixName_suffix_append id disSuffix]
      exact hc.2
    rw [rootInvariant_iff] at hInv ⊢
    intro n hab
    obtain ⟨ha, hb⟩ := hab
    rcases install_exists_sub ha with h1 | h1
    · rcases install_exists_sub hb with h2 | h2
      · exact hInv n ⟨h1, h2⟩
      · rw [← h2, endsWithDis_append] at hid
        cases hid
    · rcases install_exists_sub hb with h2 | h2
      · rw [h1, hsibf] at h2
        cases h2
      · rw [h1] at h2
        exact append_disSuffix_ne id h2

/-- C7 (amended): enable refuses (false result, unchanged root, error status)
when the non-suffixed destination exists, disable refuses symmetrically when
the disabled-suffixed destination exists, and the at-most-one-of
`{name}`/`{name}.disabled` invariant is preserved by enable, disable, remove
and install — provided the operated-on base name and install id do not
themselves end in `".disabled"` and no present folder name carries a doubled
`".disabled.disabled"` suffix (without those provisos the rename and the
install conflict check can re-pair suffix-chained names, see the
counterexample). -/
theorem c7_invariant_preserved (st : RootState) (baseE baseD base folder id : Str)
    (ok : Bool) (o : InstallOutcome)
    (hInv : rootInvariant st = true)
    (hbase : endsWithDis base = false)
    (hdd : existsName st ((base ++ disSuffix) ++ disSuffix) = false)
    (hid : endsWithDis id = false) :
    (existsName st baseE = true → (enable_plugin st baseE ok).1 = false ∧
      (enable_plugin st baseE ok).2.1 = st ∧
      Sev.error ∈ (enable_plugin st baseE ok).2.2) ∧
    (existsName st (baseD ++ disSuffix) = true → (disable_plugin st baseD ok).1 = false ∧
      (disable_plugin st baseD ok).2.1 = st ∧
      Sev.error ∈ (disable_plugin st baseD ok).2.2) ∧
    rootInvariant (enable_plugin st base ok).2.1 = true ∧
    rootInvariant (disable_plugin st base ok).2.1 = true ∧
    rootInvariant (remove_plugin st folder ok).2.1 = true ∧
    rootInvariant (install_plugin st id o).2.1 = true :=
  ⟨fun hE => enable_refuses hE, fun hD => disable_refuses hD,
    invariant_enable st base ok hInv hbase,
    invariant_disable st base ok hInv hdd,
    invariant_remove st folder ok hInv,
    invariant_install st id o hInv hid⟩

/-- Root with an enabled plugin `B` and a disabled plugin `A`, used to
instantiate the amended C7 theorem. -/
def rootC7 : RootState :=
  [⟨("B").toList, true, true⟩, ⟨("A.disabled").toList, true, true⟩]

/-- Witness for C7 (amended) on `rootC7`: enable of the existing `B` refuses,
disable of the already-disabled `A` refuses, and all four operations preserve
the invariant. -/
theorem c7_invariant_preserved_witness :
    ((enable_plugin rootC7 (("B").toList) true).1 = false ∧
      (enable_plugin rootC7 (("B").toList) true).2.1 = rootC7 ∧
      Sev.error ∈ (enable_plugin rootC7 (("B").toList) true).2.2) ∧
    ((disable_plugin rootC7 (("A").toList) true).1 = false ∧
      (disable_plugin rootC7 (("A").toList) true).2.1 = rootC7 ∧
      Sev.error ∈ (disable_plugin rootC7 (("A").toList) true).2.2) ∧
    rootInvariant (enable_plugin rootC7 (("B").toList) true).2.1 = true ∧
    rootInvariant (disable_plugin rootC7 (("B").toList) true).2.1 = true ∧
    rootInvariant (remove_plugin rootC7 (("B").toList) true).2.1 = true ∧
    rootInvariant (install_plugin rootC7 (("Q").toList) (.success [])).2.1 = true := by
  have h := c7_invariant_preserved rootC7 (("B").toList) (("A").toList) (("B").toList)
    (("B").toList) (("Q").toList) true (.success [])
    (by decide) (by decide) (by decide) (by decide)
  exact ⟨h.1 (by decide), h.2.1 (by decide), h.2.2.1, h.2.2.2.1, h.2.2.2.2.1, h.2.2.2.2.2⟩

/-- Root exhibiting the C7 counterexample: an enabled plugin `B` next to a
directory whose name carries a doubled disabled suffix. -/
def rootC7x : RootState :=
  [⟨("B").toList, true, true⟩, ⟨("B.disabled.disabled").toList, true, true⟩]

/-- Counterexample to C7 as stated: on a root satisfying the invariant for
every name, disabling the enabled plugin `B` succeeds yet leaves both `B.disabled` and
`B.disabled.disabled` present, so the at-most-one-of-`{name}`/`{name}.disabled`
invariant is not preserved by every lifecycle operation. -/
theorem c7_invariant_counterexample :
    rootInvariant rootC7x = true ∧
    (disable_plugin rootC7x (("B").toList) true).1 = true ∧
    rootInvariant (disable_plugin rootC7x (("B").toList) true).2.1 = false := by
  refine ⟨by decide, by decide, by decide⟩

theorem scanEntry_eq (e : Entry) :
    scanEntry e =
      (if e.isDir && e.hasLoadPy then
        some (if endsWithDis e.name then
          (⟨stripDis e.name, disabledStr, e.name⟩ : InstalledPluginInfo)
        else ⟨e.name, enabledStr, e.name⟩)
      else none) := by
  unfold scanEntry
  cases hd : e.isDir <;> cases hl : e.hasLoadPy <;> cases he : endsWithDis e.name <;>
    simp [hd, hl, he]

theorem scan_length (st : RootState) :
    (st.filterMap scanEntry).length =
      (st.filter (fun e => e.isDir && e.hasLoadPy)).length := by
  induction st with
  | nil => rfl
  | cons e t ih =>
    cases hq : (e.isDir && e.hasLoadPy) <;>
      simp [List.filterMap_cons, List.filter_cons, scanEntry_eq, hq, ih]

/-- C8: the installed-set scan reports exactly one record per direct child
directory holding `load.py` at its top level (the length equation), each such
directory appears classified by the disabled-suffix rule with the suffix
stripped from the display name (membership), every reported record arises
from such a directory (completeness), and a missing plugin root yields an
empty sequence with one warning. -/
theorem c8_scan_classification (st : RootState) :
    ((get_installed_plugins (some st)).1.length =
      (st.filter (fun e => e.isDir && e.hasLoadPy)).length) ∧
    (∀ e ∈ st, e.isDir = true → e.hasLoadPy = true →
      (if endsWithDis e.name then
        (⟨stripDis e.name, disabledStr, e.name⟩ : InstalledPluginInfo)
      else ⟨e.name, enabledStr, e.name⟩) ∈ (get_installed_plugins (some st)).1) ∧
    (∀ i ∈ (get_installed_plugins (some st)).1, ∃ e ∈ st,
      e.isDir = true ∧ e.hasLoadPy = true ∧
      i = (if endsWithDis e.name then ⟨stripDis e.name, disabledStr, e.name⟩
        else ⟨e.name, enabledStr, e.name⟩)) ∧
    get_installed_plugins none = ([], [.warning]) := by
  refine ⟨scan_length st, ?_, ?_, rfl⟩
  · intro e he hd hl
    have hse : scanEntry e = some (if endsWithDis e.name then
        ⟨stripDis e.name, disabledStr, e.name⟩ else ⟨e.name, enabledStr, e.name⟩) := by
      rw [scanEntry_eq, hd, hl]
      rfl
    exact List.mem_filterMap.mpr ⟨e, he, hse⟩
  · intro i hi
    obtain ⟨e, he, hfe⟩ := List.mem_filterMap.mp hi
    rw [scanEntry_eq] at hfe
    by_cases hq : (e.isDir && e.hasLoadPy) = true
    · rw [if_pos hq] at hfe
      injection hfe with hfe
      obtain ⟨hd, hl⟩ := Bool.and_eq_true_iff.mp hq
      exact ⟨e, he, hd, hl, hfe.symm⟩
    · rw [if_neg hq] at hfe
      cases hfe

/-- Root used to instantiate the C8 theorem: an enabled plugin, a disabled
plugin, a directory without `load.py`, and a plain file. -/
def rootC8 : RootState :=
  [⟨("A").toList, true, true⟩, ⟨("B.disabled").toList, true, true⟩,
   ⟨("C").toList, true, false⟩, ⟨("f.txt").toList, false, true⟩]

/-- Witness for C8 on `rootC8`: the count matches the qualifying directories
and the disabled plugin is reported with the suffix stripped. -/
theorem c8_scan_classification_witness :
    ((get_installed_plugins (some rootC8)).1.length =
      (rootC8.filter (fun e => e.isDir && e.hasLoadPy)).length) ∧
    (if endsWithDis (("B.disabled").toList) then
      (⟨stripDis (("B.disabled").toList), disabledStr, ("B.disabled").toList⟩ :
        InstalledPluginInfo)
    else ⟨("B.disabled").toList, enabledStr, ("B.disabled").toList⟩) ∈
      (get_installed_plugins (some rootC8)).1 ∧
    get_installed_plugins none = ([], [.warning]) := by
  have h := c8_scan_classification rootC8
  exact ⟨h.1, h.2.1 ⟨("B.disabled").toList, true, true⟩ (by decide) rfl rfl, h.2.2.2⟩

/-- JSON values as parsed by `response.json()`. -/
inductive Json where
  | null : Json
  | bool : Bool → Json
  | num : Int → Json
  | str : Str → Json
  | arr : List Json → Json
  | obj : List (Str × Json) → Json

/-- Whether a JSON value is an object (a Python `dict`). -/
def Json.isObj : Json → Bool
  | .obj _ => true
  | _ => false

/-- Whether a JSON value is an array (a Python `list`). -/
def Json.isArr : Json → Bool
  | .arr _ => true
  | _ => false

/-- Python membership test `key in entry` on a JSON value: key lookup for an
object, substring test for a string, element equality for an array, and a
`TypeError` for every other value. -/
def pyIn (key : Str) (j : Json) : Except Unit Bool :=
  match j with
  | .obj fields => .ok (fields.any (fun p => p.1 == key))
  | .str s => .ok (decide (key <:+: s))
  | .arr l => .ok (l.any (fun x =>
      match x with
      | .str s => s == key
      | _ => false))
  | _ => .error ()

/-- The six required manifest fields checked by `fetch_available_plugins`. -/
def requiredKeys : List Str :=
  [("id").toList, ("name").toList, ("version").toList, ("author").toList,
   ("description").toList, ("downloadUrl").toList]

/-- Python `all(key in entry for key in requiredKeys)`, short-circuiting on
the first missing key and propagating a `TypeError` from the first test. -/
def allKeysIn : List Str → Json → Except Unit Bool
  | [], _ => .ok true
  | k :: ks, e => do
    let b ← pyIn k e
    if b then allKeysIn ks e else .ok false

/-- Python `dict.setdefault`: append the key with the default value when
absent (insertion order puts it last). -/
def pySetdefault (fields : List (Str × Json)) (k : Str) (v : Json) :
    List (Str × Json) :=
  if fields.any (fun p => p.1 == k) then fields else fields ++ [(k, v)]

/-- Manifest key `"edmcCompatibility"`. -/
def edmcKey : Str := ("edmcCompatibility").toList

/-- Manifest key `"repositoryUrl"`. -/
def repoKey : Str := ("repositoryUrl").toList

/-- The two `setdefault` calls of `fetch_available_plugins`; a non-object
reaching them raises `AttributeError`. -/
def setDefaults : Json → Except Unit Json
  | .obj fields =>
    .ok (.obj (pySetdefault (pySetdefault fields edmcKey .null) repoKey .null))
  | _ => .error ()

/-- The per-entry validation loop of `fetch_available_plugins` (source lines
100-107): entries with all required keys are kept with optional keys
defaulted, other entries are skipped one by one (with a logged warning); an
exception anywhere aborts the whole loop. -/
def validateEntries : List Json → Except Unit (List Json)
  | [] => .ok []
  | e :: rest => do
    let b ← allKeysIn requiredKeys e
    if b then
      let e2 ← setDefaults e
      let rest2 ← validateEntries rest
      pure (e2 :: rest2)
    else
      validateEntries rest

/-- Network outcome of the manifest request: `netError` covers connection
errors, timeouts and non-2xx statuses surfaced by `raise_for_status`,
`jsonError` a `json.JSONDecodeError` from `response.json()`, and `body` a
successfully parsed JSON document. -/
inductive NetOutcome where
  | netError
  | jsonError
  | body (j : Json)

/-- `fetch_available_plugins` (source lines 75-117): empty-URL short-circuit,
soft failure on network and JSON-decoding errors, the non-list root check,
per-entry validation, and the catch-all handler that converts any exception
into an empty result plus an error status.  Returns the validated entries and
the severities of the `_status_update` calls made. -/
def fetch_available_plugins (url : Str) (net : NetOutcome) :
    List Json × List Sev :=
  if url = [] then ([], [.error])
  else
    match net with
    | .netError => ([], [.info, .error])
    | .jsonError => ([], [.info, .error])
    | .body j =>
      match j with
      | .arr entries =>
        match validateEntries entries with
        | .ok valid => (valid, [.info, .info])
        | .error _ => ([], [.info, .error])
      | _ => ([], [.info, .error])

/-- Whether a JSON object entry carries all six required fields (false for
any non-object). -/
def wellFormed (j : Json) : Bool :=
  match j with
  | .obj fields => requiredKeys.all (fun k => fields.any (fun p => p.1 == k))
  | _ => false

/-- Total counterpart of `setDefaults`, used to state the C5
correspondence. -/
def setDefaultsObj (j : Json) : Json :=
  match j with
  | .obj fields => .obj (pySetdefault (pySetdefault fields edmcKey .null) repoKey .null)
  | _ => j

theorem allKeysIn_obj (ks : List Str) (fields : List (Str × Json)) :
    allKeysIn ks (.obj fields) =
      .ok (ks.all (fun k => fields.any (fun p => p.1 == k))) := by
  induction ks with
  | nil => rfl
  | cons k ks ih =>
    cases hk : fields.any (fun p => p.1 == k) <;>
      simp [allKeysIn, pyIn, hk, ih] <;> rfl

theorem validateEntries_objs : ∀ {entries : List Json},
    (∀ e ∈ entries, e.isObj = true) →
    validateEntries entries = .ok ((entries.filter wellFormed).map setDefaultsObj) := by
  intro entries
  induction entries with
  | nil => intro _; rfl
  | cons e rest ih =>
    intro h
    have he : e.isObj = true := h e (List.mem_cons_self e rest)
    have hrest := ih (fun x hx => h x (List.mem_cons_of_mem e hx))
    cases e with
    | obj fields =>
      cases hw : wellFormed (Json.obj fields) <;>
        simp [validateEntries, allKeysIn_obj, List.filter_cons, hw, hrest,
          setDefaults, setDefaultsObj,
          show (requiredKeys.all (fun k => fields.any (fun p => p.1 == k))) =
            wellFormed (Json.obj fields) from rfl] <;> rfl
    | null => cases he
    | bool b => cases he
    | num n => cases he
    | str s => cases he
    | arr l => cases he

/-- C5: for a fetched manifest list whose entries are JSON objects, fetch
returns exactly the well-formed entries (those carrying all six required
fields, with absent optional fields defaulted to null), in manifest order;
malformed entries are skipped individually and the fetch succeeds with no
error status. -/
theorem c5_manifest_validation (url : Str) (entries : List Json)
    (hurl : url ≠ []) (h : ∀ e ∈ entries, e.isObj = true) :
    (fetch_available_plugins url (.body (.arr entries))).1 =
      (entries.filter wellFormed).map setDefaultsObj ∧
    (fetch_available_plugins url (.body (.arr entries))).1.length =
      (entries.filter wellFormed).length ∧
    (fetch_available_plugins url (.body (.arr entries))).2 = [.info, .info] := by
  simp only [fetch_available_plugins]
  rw [if_neg hurl, validateEntries_objs h]
  exact ⟨rfl, by simp, rfl⟩

/-- Manifest with one well-formed object, one object missing fields, and one
well-formed object, instantiating C5 with N = 2, M = 1. -/
def manifestC5 : List Json :=
  [Json.obj [(("id").toList, .str (("a").toList)),
    (("name").toList, .str (("a").toList)),
    (("version").toList, .str (("1").toList)),
    (("author").toList, .str (("x").toList)),
    (("description").toList, .str (("d").toList)),
    (("downloadUrl").toList, .str (("u").toList))],
   Json.obj [(("id").toList, .str (("b").toList))],
   Json.obj [(("id").toList, .str (("c").toList)),
    (("name").toList, .str (("c").toList)),
    (("version").toList, .str (("2").toList)),
    (("author").toList, .str (("y").toList)),
    (("description").toList, .str (("e").toList)),
    (("downloadUrl").toList, .str (("v").toList)),
    (("repositoryUrl").toList, .str (("r").toList))]]

/-- Witness for C5 on `manifestC5`: two records survive, in order, and the
fetch reports no error. -/
theorem c5_manifest_validation_witness :
    (fetch_available_plugins (("u").toList) (.body (.arr manifestC5))).1 =
      (manifestC5.filter wellFormed).map setDefaultsObj ∧
    (fetch_available_plugins (("u").toList) (.body (.arr manifestC5))).1.length =
      (manifestC5.filter wellFormed).length ∧
    (fetch_available_plugins (("u").toList) (.body (.arr manifestC5))).2 =
      [.info, .info] :=
  c5_manifest_validation (("u").toList) manifestC5 (by decide)
    (by intro e he; fin_cases he <;> rfl)

/-- C6: fetch fails soft: a network error (including non-2xx responses),
malformed JSON, a JSON root that is not a list, and an exception thrown while
scanning entries each yield an empty list plus an error-severity status, so
the caller always receives a normal return value. -/
theorem c6_fetch_fails_soft (url : Str) (j : Json) (entries : List Json)
    (hurl : url ≠ []) (hj : j.isArr = false)
    (hv : validateEntries entries = .error ()) :
    fetch_available_plugins url .netError = ([], [.info, .error]) ∧
    fetch_available_plugins url .jsonError = ([], [.info, .error]) ∧
    fetch_available_plugins url (.body j) = ([], [.info, .error]) ∧
    fetch_available_plugins url (.body (.arr entries)) = ([], [.info, .error]) := by
  refine ⟨?_, ?_, ?_, ?_⟩
  · unfold fetch_available_plugins
    rw [if_neg hurl]
  · unfold fetch_available_plugins
    rw [if_neg hurl]
  · unfold fetch_available_plugins
    rw [if_neg hurl]
    cases j with
    | arr l => simp [Json.isArr] at hj
    | null => rfl
    | bool b => rfl
    | num n => rfl
    | str s => rfl
    | obj fields => rfl
  · simp only [fetch_available_plugins]
    rw [if_neg hurl, hv]

/-- Witness for C6 at a numeric JSON root and a manifest list holding a
numeric entry (whose membership test raises `TypeError` inside the loop). -/
theorem c6_fetch_fails_soft_witness :
    fetch_available_plugins (("u").toList) .netError = ([], [.info, .error]) ∧
    fetch_available_plugins (("u").toList) .jsonError = ([], [.info, .error]) ∧
    fetch_available_plugins (("u").toList) (.body (.num 0)) = ([], [.info, .error]) ∧
    fetch_available_plugins (("u").toList) (.body (.arr [.num 0])) =
      ([], [.info, .error]) :=
  c6_fetch_fails_soft (("u").toList) (.num 0) [.num 0] (by decide) rfl rfl

/-- Outcome of invoking the caller-supplied status callback. -/
inductive CbOutcome where
  | ok
  | raises
deriving DecidableEq

/-- Observable effect of one `_status_update` call: whether the callback was
invoked, whether a callback exception was caught and logged, and at which
logger level the message was routed when no callback is supplied. -/
structure StatusEffect where
  callbackInvoked : Bool
  callbackErrorLogged : Bool
  loggedAt : Option Sev
deriving DecidableEq

/-- The `msg_type` string that the source passes for each severity. -/
def msgTypeStr : Sev → Str
  | .info => ("info").toList
  | .warning => ("warning").toList
  | .error => ("error").toList

/-- Logger-level selection of the no-callback branch of `_status_update`
(source lines 64-70): `"error"` and `"warning"` route to the matching logger
level, anything else (including the `"info"` default) to info. -/
def sevOfMsgType : Option Str → Sev
  | some t =>
    if t = ("error").toList then .error
    else if t = ("warning").toList then .warning
    else .info
  | none => .info

/-- `_status_update` (source lines 56-70): with a callback, invoke it and
catch (logging at error level) any exception it raises, then return normally;
with no callback, route the message to the logger at the level matching its
type.  The function is total: no exception propagates to the operation that
called it, so operation results never depend on callback behaviour. -/
def statusUpdate (cb : Option CbOutcome) (msgType : Option Str) : StatusEffect :=
  match cb with
  | some .ok => ⟨true, false, none⟩
  | some .raises => ⟨true, true, none⟩
  | none => ⟨false, false, some (sevOfMsgType msgType)⟩

/-- Delivery of an operation's status stream through `_status_update`. -/
def deliverStatuses (cb : Option CbOutcome) (msgTypes : List (Option Str)) :
    List StatusEffect :=
  msgTypes.map (statusUpdate cb)

/-- C10: a raising callback is caught and logged inside `_status_update`,
which still returns normally (so the callback cannot alter an operation's
control flow or return value); a normal callback is invoked with nothing
logged; with no callback the message is routed to the logger at the level
matching its severity (defaulting to info); and every message of an
operation's status stream is delivered whatever the callback does. -/
theorem c10_status_update_contract :
    (∀ t, statusUpdate (some .raises) t =
      ⟨true, true, none⟩) ∧
    (∀ t, statusUpdate (some .ok) t = ⟨true, false, none⟩) ∧
    (∀ s, statusUpdate none (some (msgTypeStr s)) = ⟨false, false, some s⟩) ∧
    statusUpdate none none = ⟨false, false, some .info⟩ ∧
    (∀ cb msgs, (deliverStatuses cb msgs).length = msgs.length) ∧
    (∀ cb cb2 st id o,
      (deliverStatuses cb (((install_plugin st id o).2.2).map
        (fun s => some (msgTypeStr s)))).length =
      (deliverStatuses cb2 (((install_plugin st id o).2.2).map
        (fun s => some (msgTypeStr s)))).length) := by
  refine ⟨fun t => rfl, fun t => rfl, fun s => ?_, rfl, fun cb msgs => ?_, ?_⟩
  · cases s <;> rfl
  · simp [deliverStatuses]
  · intro cb cb2 st id o
    simp [deliverStatuses]
